import Mathlib

/-
Verification of the nobrainer guide notebooks and of the data pipeline they
drive: manifest splitting, manifest validation, shard writing, the block
dataset builder and its step-count formula.  Library functions called by the
notebooks but whose implementation is not part of the notebook sources are
modelled from the specification document; each such definition carries a doc
comment saying so.
-/

namespace Nobrainer

/-- Modelled from the spec: the number of blocks one volume is split into,
product over i of (volume_shape[i] / block_shape[i]); used by
nobrainer.dataset.get_steps_per_epoch, whose implementation is not in the
notebook sources. -/
def blocksPerVolume (volume_shape block_shape : List Nat) : Nat :=
  (List.zipWith (· / ·) volume_shape block_shape).prod

/-- Modelled from the spec: nobrainer.dataset.get_steps_per_epoch, whose
implementation is not in the notebook sources.  The spec gives
steps_per_epoch = floor(volume_blocks_per_volume * n_volumes / batch_size)
with volume_blocks_per_volume = product(volume_shape[i] / block_shape[i]);
Nat division is floor division. -/
def get_steps_per_epoch (n_volumes : Nat) (volume_shape block_shape : List Nat)
    (batch_size : Nat) : Nat :=
  blocksPerVolume volume_shape block_shape * n_volumes / batch_size

/-- Modelled from the spec: the batching stage of the block dataset builder
groups the block stream into batches of exactly batch_size blocks, dropping
the remainder blocks that do not fill a batch. -/
def dropRemainderBatches {α : Type} (bs : Nat) (l : List α) : List (List α) :=
  if h : 0 < bs ∧ bs ≤ l.length then
    l.take bs :: dropRemainderBatches bs (l.drop bs)
  else []
termination_by l.length
decreasing_by
  rw [List.length_drop]
  omega

/-- Modelled from the spec: with an unbounded epoch count the block stream
cycles through the per-epoch blocks forever; this is its i-th element. -/
def unboundedBlock {α : Type} (epochBlocks : List α) (i : Nat) : Option α :=
  epochBlocks[i % epochBlocks.length]?

/-- Modelled from the spec: the k-th batch of the unbounded block stream. -/
def unboundedBatch {α : Type} (epochBlocks : List α) (bs k : Nat) : List α :=
  (List.range bs).filterMap (fun j => unboundedBlock epochBlocks (k * bs + j))

theorem dropRemainderBatches_length {α : Type} (bs : Nat) (l : List α) :
    (dropRemainderBatches bs l).length = l.length / bs := by
  generalize hn : l.length = n
  induction n using Nat.strong_induction_on generalizing l with
  | _ n ih =>
    subst hn
    by_cases h : 0 < bs ∧ bs ≤ l.length
    · rw [dropRemainderBatches, dif_pos h, List.length_cons,
        ih (l.drop bs).length (by rw [List.length_drop]; omega) (l.drop bs) rfl,
        List.length_drop, Nat.div_eq_sub_div h.1 h.2]
    · rw [dropRemainderBatches, dif_neg h]
      rcases Nat.eq_zero_or_pos bs with hbs | hbs
      · simp [hbs]
      · have hlt : l.length < bs := by omega
        rw [List.length_nil, Nat.div_eq_of_lt hlt]

theorem length_filterMap_of_isSome {α β : Type} (f : β → Option α) (l : List β)
    (h : ∀ x ∈ l, (f x).isSome) : (l.filterMap f).length = l.length := by
  induction l with
  | nil => rfl
  | cons a t ih =>
    have ha := h a (List.mem_cons_self a t)
    rw [List.filterMap_cons]
    cases hfa : f a with
    | none => rw [hfa] at ha; simp at ha
    | some y =>
      rw [List.length_cons, ih (fun x hx => h x (List.mem_cons_of_mem a hx)),
        List.length_cons]

/-- Structural worker for chunking a list into contiguous groups of at most n
elements; the fuel argument only bounds the recursion depth and is irrelevant
as long as it is at least the length of the list. -/
def chunksFuel {α : Type} (n : Nat) : Nat → List α → List (List α)
  | _, [] => []
  | 0, _ :: _ => []
  | fuel + 1, x :: xs => (x :: xs).take n :: chunksFuel n fuel ((x :: xs).drop n)

/-- Modelled from the spec: the partition of the example sequence into
contiguous groups of at most n examples, in order, used by
nobrainer.tfrecord.write. -/
def chunks {α : Type} (n : Nat) (l : List α) : List (List α) :=
  chunksFuel n l.length l

/-- Zero padding of the shard index to width 3, after the Python format code
03d used in the notebook filename templates. -/
def zeroPad3 (i : Nat) : String :=
  String.mk (List.replicate (3 - (Nat.repr i).length) (Char.ofNat 48)) ++ Nat.repr i

/-- Modelled from the spec: nobrainer.tfrecord.write, whose implementation is
not in the notebook sources.  It partitions the examples in order into
contiguous groups of at most examples_per_shard and writes each group as one
file whose name substitutes the zero-padded shard index into the filename
template; the template is represented by its parts before and after the index
placeholder, and the result lists the (filename, contents) pairs in shard
order. -/
def tfrecord_write {α : Type} (stem ext : String) (examples_per_shard : Nat)
    (features_labels : List α) : List (String × List α) :=
  (chunks examples_per_shard features_labels).enum.map
    (fun p => (stem ++ zeroPad3 p.1 ++ ext, p.2))

theorem chunksFuel_congr {α : Type} (n : Nat) (hn : 0 < n) :
    ∀ (fuel1 fuel2 : Nat) (l : List α), l.length ≤ fuel1 → l.length ≤ fuel2 →
      chunksFuel n fuel1 l = chunksFuel n fuel2 l := by
  intro fuel1
  induction fuel1 with
  | zero =>
    intro fuel2 l h1 h2
    have hl : l = [] := List.eq_nil_of_length_eq_zero (Nat.le_zero.mp h1)
    subst hl
    cases fuel2 <;> rfl
  | succ f1 ih =>
    intro fuel2 l h1 h2
    cases l with
    | nil => cases fuel2 <;> rfl
    | cons x xs =>
      cases fuel2 with
      | zero => simp at h2
      | succ f2 =>
        show (x :: xs).take n :: chunksFuel n f1 ((x :: xs).drop n)
            = (x :: xs).take n :: chunksFuel n f2 ((x :: xs).drop n)
        congr 1
        apply ih
        · rw [List.length_drop]
          simp only [List.length_cons] at h1 ⊢
          omega
        · rw [List.length_drop]
          simp only [List.length_cons] at h2 ⊢
          omega

theorem chunks_cons_eq {α : Type} (n : Nat) (hn : 0 < n) (l : List α)
    (hne : l ≠ []) : chunks n l = l.take n :: chunks n (l.drop n) := by
  cases l with
  | nil => exact absurd rfl hne
  | cons x xs =>
    show (x :: xs).take n :: chunksFuel n xs.length ((x :: xs).drop n)
        = (x :: xs).take n :: chunksFuel n ((x :: xs).drop n).length ((x :: xs).drop n)
    congr 1
    apply chunksFuel_congr n hn
    · rw [List.length_drop]
      simp only [List.length_cons]
      omega
    · exact Nat.le_refl _

theorem chunks_flatten {α : Type} (n : Nat) (hn : 0 < n) (l : List α) :
    (chunks n l).flatten = l := by
  generalize hm : l.length = m
  induction m using Nat.strong_induction_on generalizing l with
  | _ m ih =>
    subst hm
    by_cases hne : l = []
    · subst hne; rfl
    · have hp : 0 < l.length := List.length_pos.mpr hne
      rw [chunks_cons_eq n hn l hne, List.flatten_cons,
        ih (l.drop n).length ?_ (l.drop n) rfl, List.take_append_drop]
      rw [List.length_drop]
      omega

theorem chunks_length_le {α : Type} (n : Nat) (hn : 0 < n) (l : List α) :
    ∀ g ∈ chunks n l, g.length ≤ n := by
  generalize hm : l.length = m
  induction m using Nat.strong_induction_on generalizing l with
  | _ m ih =>
    subst hm
    by_cases hne : l = []
    · subst hne
      intro g hg
      simp [chunks, chunksFuel] at hg
    · have hp : 0 < l.length := List.length_pos.mpr hne
      rw [chunks_cons_eq n hn l hne]
      intro g hg
      rcases List.mem_cons.mp hg with rfl | hg2
      · rw [List.length_take]
        omega
      · refine ih (l.drop n).length ?_ (l.drop n) rfl g hg2
        rw [List.length_drop]
        omega

/-- Modelled from the spec: the label side of a manifest entry, either a label
volume (with its spatial shape and voxel values) or a scalar label. -/
inductive LabelSource
  | volume (shape : List Nat) (values : List ℚ)
  | scalar (value : ℚ)
deriving DecidableEq

/-- Modelled from the spec: a manifest entry as seen by the validator, the
spatial shape of the feature volume together with its label source. -/
structure ManifestEntry where
  featureShape : List Nat
  label : LabelSource
deriving DecidableEq

/-- A value is integer-ish when it is an integer. -/
def isIntegerish (q : ℚ) : Bool :=
  q.den == 1

/-- Modelled from the spec: a single manifest entry is valid when its label
volume (if any) has the same spatial shape as the feature volume and all label
values are integer-valued; a scalar label must be integer-valued. -/
def entryValid (e : ManifestEntry) : Bool :=
  match e.label with
  | .volume s vals => (s == e.featureShape) && vals.all isIntegerish
  | .scalar v => isIntegerish v

/-- Modelled from the spec: entries may be validated in parallel up to a
concurrency bound w; the input is cut into consecutive waves of w entries,
each wave is processed independently, and the per-wave results are reassembled
in the original order. -/
def parMapChunked {α β : Type} (w : Nat) (f : α → β) (l : List α) : List β :=
  ((chunks w l).map (fun c => c.map f)).flatten

/-- Modelled from the spec: nobrainer.io.verify_features_labels, whose
implementation is not in the notebook sources; it returns one invalid flag per
entry, in the input order, validating up to num_parallel_calls entries in
parallel. -/
def verify_features_labels (entries : List ManifestEntry)
    (num_parallel_calls : Nat) : List Bool :=
  parMapChunked num_parallel_calls (fun e => !entryValid e) entries

theorem parMapChunked_eq_map {α β : Type} (w : Nat) (hw : 0 < w) (f : α → β)
    (l : List α) : parMapChunked w f l = l.map f := by
  generalize hm : l.length = m
  induction m using Nat.strong_induction_on generalizing l with
  | _ m ih =>
    subst hm
    by_cases hne : l = []
    · subst hne; rfl
    · have hp : 0 < l.length := List.length_pos.mpr hne
      have hlt : (l.drop w).length < l.length := by
        rw [List.length_drop]
        omega
      have ihd := ih (l.drop w).length hlt (l.drop w) rfl
      unfold parMapChunked at ihd ⊢
      rw [chunks_cons_eq w hw l hne, List.map_cons, List.flatten_cons, ihd,
        ← List.map_append, List.take_append_drop]

/-- Modelled from the spec: the dtype tag stored with every serialized
volume so that the dtype can be reconstructed exactly on read. -/
inductive DType
  | float32
  | float64
  | int32
  | int64
  | uint8
deriving DecidableEq

/-- Modelled from the spec: a volume as serialized into a shard example: its
dtype tag, its shape, and its raw scalar values (bit patterns, lossless). -/
structure Volume where
  dtype : DType
  shape : List Nat
  values : List Int
deriving DecidableEq

/-- The numeric code a dtype tag is serialized as. -/
def DType.code : DType → Int
  | .float32 => 0
  | .float64 => 1
  | .int32 => 2
  | .int64 => 3
  | .uint8 => 4

/-- Decoding of a dtype code. -/
def DType.ofCode : Int → Option DType
  | 0 => some DType.float32
  | 1 => some DType.float64
  | 2 => some DType.int32
  | 3 => some DType.int64
  | 4 => some DType.uint8
  | _ => none

/-- Modelled from the spec: the label part of a serialized example, a full
label volume for segmentation or a scalar for classification. -/
inductive ExampleLabel
  | volume (v : Volume)
  | scalar (x : Int)
deriving DecidableEq

/-- Modelled from the spec: one (feature, label) example of the shard
format. -/
structure TfExample where
  feature : Volume
  label : ExampleLabel
deriving DecidableEq

/-- Modelled from the spec: a volume is serialized with enough metadata (dtype
code, rank and shape extents, value count) to reconstruct its shape, dtype and
values exactly on read. -/
def serializeVolume (v : Volume) : List Int :=
  v.dtype.code :: Int.ofNat v.shape.length ::
    (v.shape.map Int.ofNat ++ Int.ofNat v.values.length :: v.values)

/-- Modelled from the spec: parse one serialized volume from the front of a
stream, returning it together with the rest of the stream. -/
def readVolume (s : List Int) : Option (Volume × List Int) :=
  match s with
  | c :: n :: rest =>
    match DType.ofCode c with
    | some d =>
      if n.toNat ≤ rest.length then
        match rest.drop n.toNat with
        | m :: rest2 =>
          if m.toNat ≤ rest2.length then
            some (⟨d, (rest.take n.toNat).map Int.toNat, rest2.take m.toNat⟩,
              rest2.drop m.toNat)
          else none
        | [] => none
      else none
    | none => none
  | _ => none

/-- Modelled from the spec: serialization of one example into the shard
format; a tag distinguishes volumetric from scalar labels. -/
def serializeExample (e : TfExample) : List Int :=
  serializeVolume e.feature ++
    (match e.label with
      | .volume v => 0 :: serializeVolume v
      | .scalar x => [1, x])

/-- Modelled from the spec: the block dataset reader decodes one serialized
example back into its feature volume and label. -/
def deserializeExample (s : List Int) : Option TfExample :=
  match readVolume s with
  | some (f, rest) =>
    match rest with
    | 0 :: rest2 =>
      match readVolume rest2 with
      | some (lv, []) => some ⟨f, ExampleLabel.volume lv⟩
      | _ => none
    | [1, x] => some ⟨f, ExampleLabel.scalar x⟩
    | _ => none
  | none => none

theorem DType.ofCode_code (d : DType) : DType.ofCode d.code = some d := by
  cases d <;> rfl

theorem readVolume_serializeVolume (v : Volume) (rest : List Int) :
    readVolume (serializeVolume v ++ rest) = some (v, rest) := by
  obtain ⟨d, shape, values⟩ := v
  have e1 : shape.length = (List.map Int.ofNat shape).length :=
    (List.length_map shape Int.ofNat).symm
  have hlen1 : shape.length
      ≤ (List.map Int.ofNat shape ++ Int.ofNat values.length :: (values ++ rest)).length := by
    simp
  have htake1 : (List.map Int.ofNat shape
        ++ Int.ofNat values.length :: (values ++ rest)).take shape.length
      = List.map Int.ofNat shape := by
    rw [e1, List.take_left]
  have hdrop1 : (List.map Int.ofNat shape
        ++ Int.ofNat values.length :: (values ++ rest)).drop shape.length
      = Int.ofNat values.length :: (values ++ rest) := by
    rw [e1, List.drop_left]
  have hlen2 : values.length ≤ (values ++ rest).length := by simp
  have htake2 : (values ++ rest).take values.length = values :=
    List.take_left values rest
  have hdrop2 : (values ++ rest).drop values.length = rest :=
    List.drop_left values rest
  simp [serializeVolume, readVolume, DType.ofCode_code, Int.toNat_ofNat,
    hlen1, htake1, hdrop1, hlen2, htake2, hdrop2, List.map_map, Function.comp]
  have hid : Int.toNat ∘ Int.ofNat = id := funext Int.toNat_ofNat
  rw [hid, List.map_id]

/-- C6: serializing any example into the shard format and deserializing it
through the block dataset reader reproduces the original feature volume and
label exactly: same shape, same dtype, same values. -/
theorem example_roundtrip (e : TfExample) :
    deserializeExample (serializeExample e) = some e := by
  obtain ⟨f, lab⟩ := e
  cases lab with
  | volume v =>
    unfold serializeExample deserializeExample
    rw [readVolume_serializeVolume]
    have h2 := readVolume_serializeVolume v []
    rw [List.append_nil] at h2
    simp [h2]
  | scalar x =>
    unfold serializeExample deserializeExample
    rw [readVolume_serializeVolume]
    rfl

/-- The split used by both notebooks: train_paths = filepaths[:9]. -/
def trainPaths {α : Type} (filepaths : List α) : List α :=
  List.take 9 filepaths

/-- The split used by both notebooks: evaluate_paths = filepaths[9:]. -/
def evaluatePaths {α : Type} (filepaths : List α) : List α :=
  List.drop 9 filepaths

/-- The binary-classification notebook builds its manifest as
[(x, random.choice([0, 1])) for x, _ in filepaths]; the random draw is
modelled by an oracle choose, the i-th draw picking the element of the
two-element list [0, 1] at position choose i % 2. -/
def makeClassificationManifest {α β : Type} (filepaths : List (α × β))
    (choose : Nat → Nat) : List (α × Nat) :=
  filepaths.enum.map (fun p => (p.2.1, List.getD [0, 1] (choose p.1 % 2) 0))

/-- Modelled from the spec: the block dataset builder tiles each full volume
into non-overlapping blocks in row-major grid order.  gridIndices gs lists, in
row-major order, the multi-indices of a grid whose per-axis extents are gs;
for a volume of shape V and block shape B the grid extents are
zipWith (/) V B and the block at index idx occupies the voxels from idx*B
(componentwise) up to (idx+1)*B. -/
def gridIndices : List Nat → List (List Nat)
  | [] => [[]]
  | g :: gs => (List.range g).flatMap (fun i => (gridIndices gs).map (fun is => i :: is))

/-- The row-major linear rank of a grid multi-index among grid extents gs. -/
def rowMajorRank : List Nat → List Nat → Nat
  | _ :: gs, i :: is => i * gs.prod + rowMajorRank gs is
  | _, _ => 0

/-- The voxel at coordinates v lies inside the block of shape block_shape whose
grid multi-index is idx: componentwise idx*B ≤ v < (idx+1)*B. -/
def inBlock (block_shape idx v : List Nat) : Prop :=
  List.Forall₂ (fun p x => p.1 * p.2 ≤ x ∧ x < (p.1 + 1) * p.2)
    (idx.zip block_shape) v

/-- Modelled from the spec: the dataset value a successful get_dataset call
constructs, carrying the row-major block tiling it will iterate over. -/
structure BlockDataset where
  blocks : List (List Nat)
  batchSize : Nat
  nEpochs : Option Nat

/-- Modelled from the spec: nobrainer.dataset.get_dataset, whose
implementation is not in the notebook sources.  At construction time it checks
that every volume dimension is evenly divisible by the corresponding block
dimension and fails with a configuration error otherwise; on success it
returns the block dataset over the row-major grid tiling. -/
def get_dataset (n_classes batch_size : Nat)
    (volume_shape block_shape : List Nat) (n_epochs : Option Nat)
    (augment : Bool) (shuffle_buffer_size : Option Nat)
    (num_parallel_calls : Nat) : Except String BlockDataset :=
  if volume_shape.length = block_shape.length
      ∧ ∀ p ∈ volume_shape.zip block_shape, p.1 % p.2 = 0 then
    Except.ok ⟨gridIndices (List.zipWith (· / ·) volume_shape block_shape),
      batch_size, n_epochs⟩
  else Except.error "volume_shape is not evenly divisible by block_shape"

theorem range_mul_flatMap (g p : Nat) :
    (List.range g).flatMap (fun i => (List.range p).map (fun j => i * p + j))
      = List.range (g * p) := by
  induction g with
  | zero => simp
  | succ g ih =>
    rw [List.range_succ, List.flatMap_append, ih, Nat.succ_mul, List.range_add]
    simp

theorem gridIndices_map_rank (gs : List Nat) :
    (gridIndices gs).map (rowMajorRank gs) = List.range gs.prod := by
  induction gs with
  | nil => rfl
  | cons g gs ih =>
    calc ((List.range g).flatMap
            fun i => (gridIndices gs).map (fun is => i :: is)).map
            (rowMajorRank (g :: gs))
        = (List.range g).flatMap (fun i =>
            ((gridIndices gs).map (rowMajorRank gs)).map
              (fun r => i * gs.prod + r)) := by
          rw [List.map_flatMap]
          congr 1
          funext i
          rw [List.map_map, List.map_map]
          rfl
      _ = (List.range g).flatMap (fun i =>
            (List.range gs.prod).map (fun r => i * gs.prod + r)) := by rw [ih]
      _ = List.range ((g :: gs).prod) := by rw [range_mul_flatMap, List.prod_cons]

theorem gridIndices_length (gs : List Nat) :
    (gridIndices gs).length = gs.prod := by
  have h := congrArg List.length (gridIndices_map_rank gs)
  simpa using h

theorem mem_gridIndices {gs idx : List Nat} :
    idx ∈ gridIndices gs ↔ List.Forall₂ (· < ·) idx gs := by
  induction gs generalizing idx with
  | nil => simp [gridIndices, List.forall₂_nil_right_iff]
  | cons g gs ih =>
    simp only [gridIndices, List.mem_flatMap, List.mem_map, List.mem_range]
    constructor
    · rintro ⟨i, hi, is, his, rfl⟩
      exact List.Forall₂.cons hi (ih.mp his)
    · intro h
      rw [List.forall₂_cons_right_iff] at h
      obtain ⟨i, is, hi, his, rfl⟩ := h
      exact ⟨i, hi, is, ih.mpr his, rfl⟩

theorem block_div_iff (b i x : Nat) (hb : 0 < b) :
    (i * b ≤ x ∧ x < (i + 1) * b) ↔ x / b = i := by
  constructor
  · rintro ⟨h1, h2⟩
    exact Nat.div_eq_of_lt_le h1 h2
  · rintro rfl
    refine ⟨Nat.div_mul_le_self x b, ?_⟩
    rw [Nat.add_mul, Nat.one_mul]
    exact Nat.lt_div_mul_add hb

theorem existsUnique_block {B V : List Nat}
    (h : List.Forall₂ (fun b vi => 0 < b ∧ b ∣ vi) B V) :
    ∀ v, List.Forall₂ (· < ·) v V →
      ∃! idx, idx ∈ gridIndices (List.zipWith (· / ·) V B) ∧ inBlock B idx v := by
  induction h with
  | nil =>
    intro v hv
    rw [List.forall₂_nil_right_iff] at hv
    subst hv
    refine ⟨[], ⟨?_, ?_⟩, ?_⟩
    · simp [gridIndices]
    · exact List.Forall₂.nil
    · rintro y ⟨hy, _⟩
      simpa [gridIndices] using hy
  | @cons b vi B' V' hbd htail ih =>
    intro v hv
    rw [List.forall₂_cons_right_iff] at hv
    obtain ⟨x, v', hx, hv', rfl⟩ := hv
    obtain ⟨hbpos, hbdvd⟩ := hbd
    obtain ⟨is₀, ⟨hmem₀, hin₀⟩, huniq₀⟩ := ih v' hv'
    rw [List.zipWith_cons_cons]
    refine ⟨x / b :: is₀, ⟨?_, ?_⟩, ?_⟩
    · rw [gridIndices, List.mem_flatMap]
      exact ⟨x / b, List.mem_range.mpr (Nat.div_lt_div_of_lt_of_dvd hbdvd hx),
        List.mem_map.mpr ⟨is₀, hmem₀, rfl⟩⟩
    · rw [inBlock, List.zip_cons_cons, List.forall₂_cons]
      exact ⟨(block_div_iff b (x / b) x hbpos).mpr rfl, hin₀⟩
    · rintro y ⟨hymem, hyin⟩
      rw [gridIndices, List.mem_flatMap] at hymem
      obtain ⟨i, hir, hmap⟩ := hymem
      rw [List.mem_map] at hmap
      obtain ⟨is, hisMem, rfl⟩ := hmap
      rw [inBlock, List.zip_cons_cons, List.forall₂_cons] at hyin
      obtain ⟨⟨hle, hlt⟩, htl⟩ := hyin
      have hi : x / b = i := (block_div_iff b i x hbpos).mp ⟨hle, hlt⟩
      have his : is = is₀ := huniq₀ is ⟨hisMem, htl⟩
      rw [hi, his]

/-- C2: for every volume shape V and block shape B with each dimension of V
divisible by the corresponding (positive) dimension of B, the block tiling
used by the dataset builder produces exactly prod(V_i / B_i) blocks per
volume, enumerated in row-major grid order (their row-major ranks are exactly
0, 1, ..., prod-1 in order), and every voxel of the volume lies in exactly one
block (no overlap, no voxel dropped). -/
theorem get_dataset_tiling (V B : List Nat)
    (h : List.Forall₂ (fun b vi => 0 < b ∧ b ∣ vi) B V) :
    (gridIndices (List.zipWith (· / ·) V B)).length = blocksPerVolume V B
    ∧ (gridIndices (List.zipWith (· / ·) V B)).map
          (rowMajorRank (List.zipWith (· / ·) V B))
        = List.range (blocksPerVolume V B)
    ∧ ∀ v, List.Forall₂ (· < ·) v V →
        ∃! idx, idx ∈ gridIndices (List.zipWith (· / ·) V B) ∧ inBlock B idx v :=
  ⟨gridIndices_length _, gridIndices_map_rank _, existsUnique_block h⟩

theorem get_dataset_tiling_witness :
    List.Forall₂ (fun b vi => 0 < b ∧ b ∣ vi) [128, 128, 128] [256, 256, 256]
    ∧ ((gridIndices (List.zipWith (· / ·) [256, 256, 256] [128, 128, 128])).length
        = blocksPerVolume [256, 256, 256] [128, 128, 128]
      ∧ (gridIndices (List.zipWith (· / ·) [256, 256, 256] [128, 128, 128])).map
            (rowMajorRank (List.zipWith (· / ·) [256, 256, 256] [128, 128, 128]))
          = List.range (blocksPerVolume [256, 256, 256] [128, 128, 128])
      ∧ ∀ v, List.Forall₂ (· < ·) v [256, 256, 256] →
          ∃! idx, idx ∈ gridIndices
              (List.zipWith (· / ·) [256, 256, 256] [128, 128, 128])
            ∧ inBlock [128, 128, 128] idx v) :=
  ⟨by decide, get_dataset_tiling [256, 256, 256] [128, 128, 128] (by decide)⟩

/-- C1: for every n_volumes, volume_shape, block_shape and batch_size with each
volume dimension divisible by the corresponding block dimension,
get_steps_per_epoch returns floor(product(volume_shape[i] / block_shape[i]) *
n_volumes / batch_size); in particular, for n_volumes = 9, volume_shape =
(256,256,256), block_shape = (128,128,128), batch_size = 2 it returns 36. -/
theorem get_steps_per_epoch_spec (n_volumes : Nat)
    (volume_shape block_shape : List Nat) (batch_size : Nat)
    (hdvd : List.Forall₂ (fun b v => b ∣ v) block_shape volume_shape) :
    get_steps_per_epoch n_volumes volume_shape block_shape batch_size
      = (List.zipWith (· / ·) volume_shape block_shape).prod * n_volumes / batch_size
    ∧ get_steps_per_epoch 9 [256, 256, 256] [128, 128, 128] 2 = 36 :=
  ⟨rfl, by decide⟩

theorem get_steps_per_epoch_spec_witness :
    List.Forall₂ (fun b v => b ∣ v) [128, 128, 128] [256, 256, 256]
    ∧ (get_steps_per_epoch 9 [256, 256, 256] [128, 128, 128] 2
        = (List.zipWith (· / ·) [256, 256, 256] [128, 128, 128]).prod * 9 / 2
      ∧ get_steps_per_epoch 9 [256, 256, 256] [128, 128, 128] 2 = 36) :=
  ⟨by decide, get_steps_per_epoch_spec 9 [256, 256, 256] [128, 128, 128] 2 (by decide)⟩

/-- C3: for a finite epoch count e the block dataset yields exactly
e * blocks_per_volume * n_volumes / batch_size batches (integer division,
remainder blocks dropped): the stream of e repetitions of the per-epoch block
sequence, grouped into batches of batch_size with the remainder dropped, has
exactly that many batches, whatever the (shuffled or augmented) per-epoch
contents are.  For an unbounded epoch count (n_epochs = None) the stream never
terminates on its own: every position of the cycled block stream holds a
block, and every batch index yields a full batch of batch_size blocks. -/
theorem get_dataset_batch_count {α : Type} (bs e nv : Nat) (V B : List Nat)
    (epochBlocks : List α)
    (hlen : epochBlocks.length = blocksPerVolume V B * nv)
    (hne : epochBlocks ≠ []) :
    (dropRemainderBatches bs (List.replicate e epochBlocks).flatten).length
      = e * blocksPerVolume V B * nv / bs
    ∧ (∀ i, (unboundedBlock epochBlocks i).isSome)
    ∧ ∀ k, (unboundedBatch epochBlocks bs k).length = bs := by
  have hpos : 0 < epochBlocks.length := List.length_pos.mpr hne
  refine ⟨?_, ?_, ?_⟩
  · rw [dropRemainderBatches_length]
    have hflat : (List.replicate e epochBlocks).flatten.length
        = e * epochBlocks.length := by simp
    rw [hflat, hlen, ← Nat.mul_assoc]
  · intro i
    have hi : i % epochBlocks.length < epochBlocks.length := Nat.mod_lt _ hpos
    rw [unboundedBlock, List.getElem?_eq_getElem hi]
    rfl
  · intro k
    rw [unboundedBatch, length_filterMap_of_isSome, List.length_range]
    intro j hj
    have hi : (k * bs + j) % epochBlocks.length < epochBlocks.length :=
      Nat.mod_lt _ hpos
    rw [unboundedBlock, List.getElem?_eq_getElem hi]
    rfl

theorem get_dataset_batch_count_witness :
    ((List.range 2).length = blocksPerVolume [2] [1] * 1 ∧ List.range 2 ≠ [])
    ∧ ((dropRemainderBatches 1 (List.replicate 1 (List.range 2)).flatten).length
        = 1 * blocksPerVolume [2] [1] * 1 / 1
      ∧ (∀ i, (unboundedBlock (List.range 2) i).isSome)
      ∧ ∀ k, (unboundedBatch (List.range 2) 1 k).length = 1) :=
  ⟨⟨by decide, by decide⟩,
    get_dataset_batch_count 1 1 1 [2] [1] (List.range 2) (by decide) (by decide)⟩

/-- C7: whenever some volume dimension is not divisible by the corresponding
block dimension, get_dataset fails with a configuration error at construction
time: it returns the error and never produces a dataset value, so the failure
cannot be deferred to per-example iteration. -/
theorem get_dataset_nondivisible_error (n_classes batch_size : Nat)
    (volume_shape block_shape : List Nat) (n_epochs : Option Nat)
    (augment : Bool) (shuffle_buffer_size : Option Nat)
    (num_parallel_calls : Nat)
    (h : ∃ p ∈ volume_shape.zip block_shape, p.1 % p.2 ≠ 0) :
    get_dataset n_classes batch_size volume_shape block_shape n_epochs augment
        shuffle_buffer_size num_parallel_calls
      = Except.error "volume_shape is not evenly divisible by block_shape"
    ∧ ∀ d : BlockDataset,
        get_dataset n_classes batch_size volume_shape block_shape n_epochs
            augment shuffle_buffer_size num_parallel_calls ≠ Except.ok d := by
  obtain ⟨p, hp, hne⟩ := h
  have hcond : ¬(volume_shape.length = block_shape.length
      ∧ ∀ q ∈ volume_shape.zip block_shape, q.1 % q.2 = 0) := by
    rintro ⟨-, hall⟩
    exact hne (hall p hp)
  refine ⟨?_, ?_⟩
  · rw [get_dataset, if_neg hcond]
  · intro d hd
    rw [get_dataset, if_neg hcond] at hd
    exact Except.noConfusion hd

theorem get_dataset_nondivisible_error_witness :
    (∃ p ∈ ([256, 256, 256] : List Nat).zip [100, 128, 128], p.1 % p.2 ≠ 0)
    ∧ (get_dataset 1 2 [256, 256, 256] [100, 128, 128] none false (some 10) 2
        = Except.error "volume_shape is not evenly divisible by block_shape"
      ∧ ∀ d : BlockDataset,
          get_dataset 1 2 [256, 256, 256] [100, 128, 128] none false (some 10) 2
            ≠ Except.ok d) :=
  ⟨by decide, get_dataset_nondivisible_error 1 2 [256, 256, 256] [100, 128, 128]
      none false (some 10) 2 (by decide)⟩

/-- C8: re-running a finite-epoch block dataset from scratch yields the same
total number of batches in both runs: whenever the per-epoch block sequences
of the two runs have the same length (their contents may differ under
shuffling or augmentation), the batch counts of the two runs coincide. -/
theorem dataset_restart_batch_count {α : Type} (bs e : Nat) (run1 run2 : List α)
    (hlen : run1.length = run2.length) :
    (dropRemainderBatches bs (List.replicate e run1).flatten).length
      = (dropRemainderBatches bs (List.replicate e run2).flatten).length := by
  rw [dropRemainderBatches_length, dropRemainderBatches_length]
  have h1 : (List.replicate e run1).flatten.length = e * run1.length := by simp
  have h2 : (List.replicate e run2).flatten.length = e * run2.length := by simp
  rw [h1, h2, hlen]

theorem dataset_restart_batch_count_witness :
    ([0, 1] : List Nat).length = [1, 0].length
    ∧ (dropRemainderBatches 2 (List.replicate 3 [0, 1]).flatten).length
        = (dropRemainderBatches 2 (List.replicate 3 ([1, 0] : List Nat)).flatten).length :=
  ⟨by decide, dataset_restart_batch_count 2 3 [0, 1] [1, 0] (by decide)⟩

/-- C4: tfrecord.write partitions the example sequence in order into
contiguous groups of at most examples_per_shard examples (concatenating the
shard contents in shard order restores the input), and names the shard at
position i with the zero-padded index i substituted into the filename
template; in particular, writing 9 examples with examples_per_shard = 3
produces exactly 3 shard files numbered shard-000 through shard-002, each
holding exactly 3 consecutive examples. -/
theorem tfrecord_write_shards {α : Type} (stem ext : String) (n : Nat)
    (examples : List α) (hn : 0 < n) :
    ((tfrecord_write stem ext n examples).map Prod.snd).flatten = examples
    ∧ (∀ s ∈ tfrecord_write stem ext n examples, s.2.length ≤ n)
    ∧ (tfrecord_write stem ext n examples).map Prod.fst
        = (List.range (chunks n examples).length).map
            (fun i => stem ++ zeroPad3 i ++ ext)
    ∧ tfrecord_write "data/data-train_shard-" ".tfrec" 3 (List.range 9)
        = [("data/data-train_shard-000.tfrec", [0, 1, 2]),
           ("data/data-train_shard-001.tfrec", [3, 4, 5]),
           ("data/data-train_shard-002.tfrec", [6, 7, 8])] := by
  refine ⟨?_, ?_, ?_, by decide⟩
  · have hc : (tfrecord_write stem ext n examples).map Prod.snd
        = chunks n examples := by
      unfold tfrecord_write
      rw [List.map_map]
      have h1 : (Prod.snd ∘ fun p : Nat × List α =>
          (stem ++ zeroPad3 p.1 ++ ext, p.2)) = Prod.snd := rfl
      rw [h1, List.enum_map_snd]
    rw [hc]
    exact chunks_flatten n hn examples
  · intro s hs
    unfold tfrecord_write at hs
    rw [List.mem_map] at hs
    obtain ⟨p, hp, rfl⟩ := hs
    have hp2 : p.2 ∈ chunks n examples := by
      have hm := List.mem_map_of_mem Prod.snd hp
      rwa [List.enum_map_snd] at hm
    exact chunks_length_le n hn examples p.2 hp2
  · unfold tfrecord_write
    rw [List.map_map]
    have h1 : (Prod.fst ∘ fun p : Nat × List α =>
        (stem ++ zeroPad3 p.1 ++ ext, p.2))
        = (fun i => stem ++ zeroPad3 i ++ ext) ∘ Prod.fst := rfl
    rw [h1, ← List.map_map, List.enum_map_fst]

theorem tfrecord_write_shards_witness :
    0 < 3
    ∧ (((tfrecord_write "shard-" ".tfrec" 3 (List.range 9)).map Prod.snd).flatten
        = List.range 9
      ∧ (∀ s ∈ tfrecord_write "shard-" ".tfrec" 3 (List.range 9), s.2.length ≤ 3)
      ∧ (tfrecord_write "shard-" ".tfrec" 3 (List.range 9)).map Prod.fst
          = (List.range (chunks 3 (List.range 9)).length).map
              (fun i => "shard-" ++ zeroPad3 i ++ ".tfrec")
      ∧ tfrecord_write "data/data-train_shard-" ".tfrec" 3 (List.range 9)
          = [("data/data-train_shard-000.tfrec", [0, 1, 2]),
             ("data/data-train_shard-001.tfrec", [3, 4, 5]),
             ("data/data-train_shard-002.tfrec", [6, 7, 8])]) :=
  ⟨by decide, tfrecord_write_shards "shard-" ".tfrec" 3 (List.range 9) (by decide)⟩

/-- C5: for an entry sequence containing exactly one pair with mismatched
feature/label spatial shapes among otherwise-valid pairs,
verify_features_labels flags exactly that one pair as invalid, and the result
is the sequential one-flag-per-entry map (so the flag ordering matches the
input ordering) for every positive concurrency bound num_parallel_calls. -/
theorem verify_features_labels_flags (entries : List ManifestEntry) (w k : Nat)
    (hw : 0 < w) (hk : k < entries.length)
    (hbad : ∃ s vals, (entries.get ⟨k, hk⟩).label = LabelSource.volume s vals
      ∧ s ≠ (entries.get ⟨k, hk⟩).featureShape)
    (hgood : ∀ i (h : i < entries.length), i ≠ k →
      entryValid (entries.get ⟨i, h⟩) = true) :
    verify_features_labels entries w = entries.map (fun e => !entryValid e)
    ∧ ∀ i (h : i < entries.length),
        ((verify_features_labels entries w).getD i false = true ↔ i = k) := by
  have hmap : verify_features_labels entries w
      = entries.map (fun e => !entryValid e) :=
    parMapChunked_eq_map w hw _ entries
  refine ⟨hmap, fun i h => ?_⟩
  rw [hmap]
  have hlen : i < (entries.map (fun e => !entryValid e)).length := by
    rw [List.length_map]
    exact h
  rw [List.getD_eq_getElem _ _ hlen, List.getElem_map]
  constructor
  · intro hflag
    by_contra hik
    have hg := hgood i h hik
    rw [List.get_eq_getElem] at hg
    rw [hg] at hflag
    simp at hflag
  · rintro rfl
    obtain ⟨s, vals, hvol, hne⟩ := hbad
    rw [List.get_eq_getElem] at hvol hne
    simp [entryValid, hvol, hne]

/-- A three-entry manifest whose middle entry has a mismatched label volume
shape; the others are valid. -/
def sampleEntries : List ManifestEntry :=
  [⟨[2, 2], LabelSource.volume [2, 2] [1]⟩,
   ⟨[2, 2], LabelSource.volume [3, 2] []⟩,
   ⟨[2, 2], LabelSource.scalar 0⟩]

theorem verify_features_labels_flags_witness :
    (0 < 2 ∧ 1 < sampleEntries.length
      ∧ (∃ s vals,
          (sampleEntries.get ⟨1, by decide⟩).label = LabelSource.volume s vals
          ∧ s ≠ (sampleEntries.get ⟨1, by decide⟩).featureShape)
      ∧ ∀ i (h : i < sampleEntries.length), i ≠ 1 →
          entryValid (sampleEntries.get ⟨i, h⟩) = true)
    ∧ (verify_features_labels sampleEntries 2
          = sampleEntries.map (fun e => !entryValid e)
      ∧ ∀ i (h : i < sampleEntries.length),
          ((verify_features_labels sampleEntries 2).getD i false = true ↔ i = 1)) :=
  ⟨⟨by decide, by decide, ⟨[3, 2], [], rfl, by decide⟩, by decide⟩,
    verify_features_labels_flags sampleEntries 2 1 (by decide) (by decide)
      ⟨[3, 2], [], rfl, by decide⟩ (by decide)⟩

/-- C9: train_paths = filepaths[:9] and evaluate_paths = filepaths[9:] assign
every manifest entry to exactly one split (their concatenation is the whole
manifest), the splits occupy disjoint index ranges (positions below 9 versus
positions from 9 on), and each split preserves the original ordering. -/
theorem train_evaluate_split {α : Type} (fp : List α) :
    trainPaths fp ++ evaluatePaths fp = fp
    ∧ (∀ i, (trainPaths fp)[i]? = if i < 9 then fp[i]? else none)
    ∧ (∀ i, (evaluatePaths fp)[i]? = fp[9 + i]?)
    ∧ (trainPaths fp).length + (evaluatePaths fp).length = fp.length := by
  refine ⟨List.take_append_drop 9 fp, fun i => ?_, fun i => ?_, ?_⟩
  · simp [trainPaths, List.getElem?_take]
  · simp [evaluatePaths, List.getElem?_drop]
  · simp [trainPaths, evaluatePaths]
    omega

/-- C10: the constructed binary-classification manifest pairs every original
feature path, in its original order, with a label drawn from [0, 1], so every
label in it is either 0 or 1. -/
theorem classification_manifest_labels {α β : Type} (fp : List (α × β))
    (choose : Nat → Nat) :
    (makeClassificationManifest fp choose).map Prod.fst = fp.map Prod.fst
    ∧ ∀ pr ∈ makeClassificationManifest fp choose, pr.2 = 0 ∨ pr.2 = 1 := by
  constructor
  · unfold makeClassificationManifest
    rw [List.map_map]
    have h1 : (Prod.fst ∘ fun p : Nat × (α × β) =>
        (p.2.1, List.getD [0, 1] (choose p.1 % 2) 0)) = Prod.fst ∘ Prod.snd := rfl
    rw [h1, ← List.map_map, List.enum_map_snd]
  · intro pr hpr
    unfold makeClassificationManifest at hpr
    rw [List.mem_map] at hpr
    obtain ⟨p, hp, rfl⟩ := hpr
    rcases Nat.mod_two_eq_zero_or_one (choose p.1) with h | h <;> simp [h]

end Nobrainer
